import Mathlib

/-!
Shallow embedding of the TF-IDF similarity engine of `backend/ai_helpers.py` and
`backend/ai_service.py` (the "Similarity Index Engine" of the specification).

Numeric semantics are modelled over the real numbers; the scikit-learn
collaborator (`TfidfVectorizer`, `cosine_similarity`) is not part of the
sources of the repository, so its behaviour is modelled from the description
in the specification (tokenization on word boundaries, lower-casing, a fixed English
stopword list, unigrams and bigrams, at most 1000 highest-document-frequency
terms, smoothed idf `log((1+N)/(1+df)) + 1`, L2 normalization, cosine as the
dot product of normalized vectors with an explicit zero-norm guard).
`np.argsort` is modelled as a stable ascending argsort (the numpy quicksort
falls back to a stable insertion sort on the small partitions relevant here),
which the code then reverses with `[::-1]` and slices with `[:top_k]`.
-/

/-- Modelled from the spec: a character counted as a word character by the
word-boundary pattern of the tokenizer (alphanumeric or underscore). -/
def isWordChar (c : Char) : Bool := c.isAlphanum || c == '_'

/-- Scanner accumulating the current run of word characters (reversed). -/
def splitRunsAux : List Char → List Char → List (List Char)
  | [], acc => if acc.isEmpty then [] else [acc.reverse]
  | c :: r, acc =>
    if isWordChar c then splitRunsAux r (c :: acc)
    else if acc.isEmpty then splitRunsAux r [] else acc.reverse :: splitRunsAux r []

/-- Maximal runs of word characters of a character list. -/
def splitRuns (l : List Char) : List (List Char) := splitRunsAux l []

/-- Modelled from the spec: the fixed English stopword list used by the
Term-Weighting Model (a fixed list; membership of particular common words is
all the claims of the engine depend on). -/
def ENGLISH_STOP_WORDS : List String :=
  ["a", "an", "and", "are", "as", "at", "be", "by", "for", "from",
   "has", "he", "in", "is", "it", "its", "of", "on", "that", "the",
   "to", "was", "were", "will", "with", "what", "which", "who", "this",
   "these", "those", "they", "them", "their", "then", "there", "or",
   "not", "no", "do", "does", "how", "when", "where", "why", "all",
   "any", "both", "each", "use", "using"]

/-- Modelled from the spec: tokenize on word boundaries after lower-casing,
keeping tokens of length at least two. -/
def tokenize (s : String) : List String :=
  ((splitRuns (s.data.map Char.toLower)).filter (fun r => decide (2 ≤ r.length))).map
    (fun r => String.mk r)

/-- Tokens of a text after stopword filtering. -/
def tokensOf (s : String) : List String :=
  (tokenize s).filter (fun t => !(ENGLISH_STOP_WORDS.contains t))

/-- Adjacent token bigrams, joined by a single space. -/
def bigrams : List String → List String
  | a :: b :: r => (a ++ " " ++ b) :: bigrams (b :: r)
  | _ => []

/-- Modelled from the spec: the unigram and bigram terms of a text. -/
def termsOf (s : String) : List String := tokensOf s ++ bigrams (tokensOf s)

/-- Stable insertion of `a` into a list ascending for the strict order `lt`:
`a` is placed before the first element not strictly below it, so elements
equal to `a` that are already present stay in front of it. -/
def insertAsc (lt : α → α → Prop) [DecidableRel lt] (a : α) : List α → List α
  | [] => [a]
  | b :: l => if lt b a then b :: insertAsc lt a l else a :: b :: l

/-- Stable insertion sort, ascending for the strict order `lt`. -/
def sortAsc (lt : α → α → Prop) [DecidableRel lt] : List α → List α
  | [] => []
  | a :: l => insertAsc lt a (sortAsc lt l)

/-- Strict lexicographic order on strings (on their character lists, which is
what `String.lt` unfolds to). -/
def strLt (a b : String) : Prop := a.data < b.data

instance : DecidableRel strLt := fun a b => inferInstanceAs (Decidable (a.data < b.data))

/-- Number of documents whose term list contains `t`. -/
def documentFrequency (termLists : List (List String)) (t : String) : Nat :=
  (termLists.filter (fun l => l.contains t)).length

/-- Fitted state of the Term-Weighting Model: the frozen vocabulary, the
per-term document frequencies it was fit with, and the corpus size. An
unfitted model carries `fitted := false`. -/
structure TfidfVectorizer where
  fitted : Bool
  vocab : List String
  dfs : List Nat
  nDocs : Nat
deriving DecidableEq, Inhabited

/-- A fresh, never-fitted model (the state `TfidfVectorizer(...)` has before
`fit`; transforming with it raises, modelled by the `fitted` flag). -/
def TfidfVectorizer.unfitted : TfidfVectorizer :=
  { fitted := false, vocab := [], dfs := [], nDocs := 0 }

/-- Modelled from the spec: fit the Term-Weighting Model on a corpus. Builds
the stopword-filtered unigram+bigram vocabulary sorted alphabetically, keeps
at most the 1000 highest-document-frequency terms, and records document
frequencies and corpus size. Returns `none` when the vocabulary is empty
(scikit-learn raises `ValueError: empty vocabulary`), which the callers catch. -/
def fitVectorizer (docs : List String) : Option TfidfVectorizer :=
  let termLists := docs.map termsOf
  let sortedVocab := sortAsc strLt termLists.flatten.dedup
  let vocab :=
    if sortedVocab.length ≤ 1000 then sortedVocab
    else sortAsc strLt
      ((sortAsc (fun a b => documentFrequency termLists b < documentFrequency termLists a)
          sortedVocab).take 1000)
  if vocab.isEmpty then none
  else some { fitted := true, vocab := vocab,
              dfs := vocab.map (documentFrequency termLists), nDocs := docs.length }

/-- Dot product of two real vectors represented as lists. -/
def dotL (u v : List ℝ) : ℝ := (List.zipWith (fun x y => x * y) u v).sum

/-- L2 normalization with the zero-norm guard: a zero vector is returned
unchanged (the scikit-learn `normalize` routine replaces zero norms by one). -/
noncomputable def l2normalize (v : List ℝ) : List ℝ :=
  if dotL v v = 0 then v else v.map (fun x => x / Real.sqrt (dotL v v))

/-- Cosine similarity as computed by `sklearn.metrics.pairwise.cosine_similarity`:
both vectors are L2-normalized (zero vectors staying zero) and dotted. -/
noncomputable def cosineSim (u v : List ℝ) : ℝ := dotL (l2normalize u) (l2normalize v)

/-- Smoothed inverse document frequency `log((1 + N) / (1 + df)) + 1`. -/
noncomputable def TfidfVectorizer.idf (vz : TfidfVectorizer) (df : Nat) : ℝ :=
  Real.log ((1 + (vz.nDocs : ℝ)) / (1 + (df : ℝ))) + 1

/-- Raw term frequencies of a text against the fitted vocabulary. -/
def rawTf (vz : TfidfVectorizer) (s : String) : List Nat :=
  vz.vocab.map (fun t => (termsOf s).count t)

/-- Modelled from the spec: transform a text through the fitted model —
term frequency scaled by idf, then L2-normalized. -/
noncomputable def TfidfVectorizer.transform (vz : TfidfVectorizer) (s : String) : List ℝ :=
  l2normalize (List.zipWith (fun (c : Nat) (df : Nat) => (c : ℝ) * vz.idf df)
    (rawTf vz s) vz.dfs)

/-- Strict order on corpus indices by score first and index second; the stable
ascending argsort of `s` is exactly the sort of `range s.length` by this order. -/
def idxLt (s : List ℝ) (i j : Nat) : Prop :=
  s.getD i 0 < s.getD j 0 ∨ (s.getD i 0 = s.getD j 0 ∧ i < j)

noncomputable instance (s : List ℝ) : DecidableRel (idxLt s) := fun _ _ => by
  unfold idxLt; infer_instance

/-- Stable ascending argsort, the model of `np.argsort(similarities)`. -/
noncomputable def argsortAsc (s : List ℝ) : List Nat :=
  sortAsc (idxLt s) (List.range s.length)

/-- Python slice `l[:k]`: a nonnegative bound takes a prefix, a negative bound
drops `|k|` elements from the end (empty when `|k|` reaches the length). -/
def pySliceTo (l : List α) (k : Int) : List α :=
  if 0 ≤ k then l.take k.toNat else l.take (l.length - (-k).toNat)

/-- The ranking core shared by `search_similar_texts` and
`TextbookIndex.search`: `np.argsort(similarities)[::-1][:top_k]`. -/
noncomputable def rankTopK (s : List ℝ) (k : Int) : List Nat :=
  pySliceTo (argsortAsc s).reverse k

/-- A chapter: a named chunk of text. -/
structure Chapter where
  name : String
  text : String
deriving DecidableEq, Inhabited

/-- One entry of a `TextbookIndex.search` result. -/
structure SearchResult where
  chapter_name : String
  chapter_text : String
  similarity_score : ℝ

/-- The in-memory textbook index of `ai_service.TextbookIndex`. -/
structure TextbookIndex where
  textbook_id : String
  chapters : List Chapter
  chapter_embeddings : List (List ℝ)
  vectorizer : Option TfidfVectorizer

/-- Models `TextbookIndex.add_chapter`: append a chapter; no other field changes. -/
def TextbookIndex.add_chapter (idx : TextbookIndex) (chapter_name chapter_text : String) :
    TextbookIndex :=
  { idx with chapters := idx.chapters ++ [{ name := chapter_name, text := chapter_text }] }

/-- Models `TextbookIndex.build_index`: refuse an empty chapter list; otherwise fit a
fresh model on all chapter texts and recompute one embedding per chapter. A
fit failure (empty vocabulary) is caught and reported as `false`, leaving the
freshly constructed unfitted model in place and the old embeddings unchanged,
exactly as the Python `try`/`except` does. -/
noncomputable def TextbookIndex.build_index (idx : TextbookIndex) : TextbookIndex × Bool :=
  if idx.chapters.isEmpty then (idx, false)
  else
    match fitVectorizer (idx.chapters.map Chapter.text) with
    | none => ({ idx with vectorizer := some TfidfVectorizer.unfitted }, false)
    | some vz =>
      ({ idx with vectorizer := some vz,
                  chapter_embeddings := (idx.chapters.map Chapter.text).map vz.transform },
       true)

/-- The cosine-similarity row `cosine_similarity([query_embedding],
chapter_embeddings)[0]` computed inside `TextbookIndex.search`. -/
noncomputable def TextbookIndex.searchSims (idx : TextbookIndex) (query : String) : List ℝ :=
  match idx.vectorizer with
  | none => []
  | some vz => idx.chapter_embeddings.map (fun e => cosineSim (vz.transform query) e)

/-- Models `TextbookIndex.search`: guard on a missing model or empty embedding matrix,
transform the query, rank by cosine similarity, slice to `top_k`, and read the
chapters back. A transform on a never-fitted model raises (caught, `[]`), and
an out-of-range chapter access raises (caught, `[]`). -/
noncomputable def TextbookIndex.search (idx : TextbookIndex) (query : String) (top_k : Int) :
    List SearchResult :=
  match idx.vectorizer with
  | none => []
  | some vz =>
    if idx.chapter_embeddings.length = 0 then []
    else if vz.fitted = false then []
    else if (rankTopK (idx.searchSims query) top_k).all
        (fun i => decide (i < idx.chapters.length)) then
      (rankTopK (idx.searchSims query) top_k).map (fun i =>
        { chapter_name := (idx.chapters.getD i default).name,
          chapter_text := (idx.chapters.getD i default).text,
          similarity_score := (idx.searchSims query).getD i 0 })
    else []

/-- The pickled payload written by `TextbookIndex.save`: a snapshot of all
four fields (file I/O abstracted away). -/
structure SavedIndex where
  textbook_id : String
  chapters : List Chapter
  chapter_embeddings : List (List ℝ)
  vectorizer : Option TfidfVectorizer

/-- Models `TextbookIndex.save`: serialize the full index state. -/
def TextbookIndex.save (idx : TextbookIndex) : SavedIndex :=
  { textbook_id := idx.textbook_id, chapters := idx.chapters,
    chapter_embeddings := idx.chapter_embeddings, vectorizer := idx.vectorizer }

/-- Models `TextbookIndex.load`: rebuild an index from a saved snapshot (`none` models
the caught deserialization failure, which a payload produced by `save` never
hits). -/
def TextbookIndex.load (d : SavedIndex) : Option TextbookIndex :=
  some { textbook_id := d.textbook_id, chapters := d.chapters,
         chapter_embeddings := d.chapter_embeddings, vectorizer := d.vectorizer }

/-- The similarity row computed inside `search_similar_texts` after refitting
a fresh vectorizer on the documents. -/
noncomputable def sstSims (query_text : String) (document_texts : List String) : List ℝ :=
  match fitVectorizer document_texts with
  | none => []
  | some vz => document_texts.map (fun d => cosineSim (vz.transform query_text) (vz.transform d))

/-- Models `ai_helpers.search_similar_texts`: fit on the documents (any failure is
caught and yields `[]`), rank by cosine similarity against the query, slice to
`top_k`, and return `(document_id, score, text)` triples; ids fall back to the
corpus position when `document_ids` is `None` or empty (Python truthiness),
and an id lookup out of range raises (caught, `[]`). -/
noncomputable def search_similar_texts {ι : Type} [Inhabited ι] (query_text : String)
    (document_texts : List String) (document_ids : Option (List ι)) (top_k : Int) :
    List ((ι ⊕ Nat) × ℝ × String) :=
  match fitVectorizer document_texts with
  | none => []
  | some _ =>
    match document_ids with
    | none =>
      (rankTopK (sstSims query_text document_texts) top_k).map (fun i =>
        (Sum.inr i, (sstSims query_text document_texts).getD i 0, document_texts.getD i ""))
    | some ids =>
      if ids.isEmpty then
        (rankTopK (sstSims query_text document_texts) top_k).map (fun i =>
          (Sum.inr i, (sstSims query_text document_texts).getD i 0, document_texts.getD i ""))
      else if (rankTopK (sstSims query_text document_texts) top_k).all
          (fun i => decide (i < ids.length)) then
        (rankTopK (sstSims query_text document_texts) top_k).map (fun i =>
          (Sum.inl (ids.getD i default), (sstSims query_text document_texts).getD i 0,
            document_texts.getD i ""))
      else []

/-- A page extracted from the PDF, as produced by `extract_pages_from_pdf`. -/
structure Page where
  page_number : Nat
  text : String
deriving DecidableEq, Inhabited

/-- Models `extract_pages_from_pdf` with PDF I/O abstracted to the list of
page texts: pages are numbered consecutively starting from `k`
(`enumerate(doc, 1)` in the source, so callers pass `k = 1`). -/
def numberPages (k : Nat) : List String → List Page
  | [] => []
  | t :: r => { page_number := k, text := t } :: numberPages (k + 1) r

/-- Models Python `range(0, n, 5)`. -/
def pyRange5 (n : Nat) : List Nat := (List.range ((n + 4) / 5)).map (fun k => 5 * k)

/-- The per-page chunking branch of `index_textbook`: one chapter per page,
named after its page number. -/
def pageChapters (pages : List Page) : List Chapter :=
  pages.map (fun p => { name := "Page " ++ toString p.page_number, text := p.text })

/-- The `auto` chunking branch of `index_textbook`: windows of five
consecutive pages, joined by newlines, named after the position of the window and
its first and last page numbers. -/
def autoChapters (pages : List Page) : List Chapter :=
  (pyRange5 pages.length).map (fun i =>
    let chunk := (pages.drop i).take 5
    { name := "Section " ++ toString (i / 5 + 1) ++ " (Pages " ++
        toString ((chunk.headD default).page_number) ++ "-" ++
        toString ((chunk.getLastD default).page_number) ++ ")",
      text := String.intercalate "\n" (chunk.map Page.text) })

/-- The chapter-detection dispatch of `index_textbook`: `page` and `auto` are
recognized; every other value falls into the per-page `else` branch. -/
def chunkPages (pages : List Page) (chapter_detection : String) : List Chapter :=
  if chapter_detection = "page" then pageChapters pages
  else if chapter_detection = "auto" then autoChapters pages
  else pageChapters pages

/-- Models `ai_service.index_textbook` with PDF extraction abstracted to the page
texts: chunk the pages under the selected policy, append each chunk as a
chapter, and build the index (its success flag is discarded by the source). -/
noncomputable def index_textbook (page_texts : List String) (textbook_id : String)
    (chapter_detection : String) : TextbookIndex :=
  let pages := numberPages 1 page_texts
  let chaps := chunkPages pages chapter_detection
  let idx := chaps.foldl (fun (a : TextbookIndex) (c : Chapter) => a.add_chapter c.name c.text)
    { textbook_id := textbook_id, chapters := [], chapter_embeddings := [], vectorizer := none }
  idx.build_index.1

/-- Two-chapter corpus with identical texts, used to exhibit tie behaviour. -/
def exChaptersCC : List Chapter := [{ name := "A", text := "cat" }, { name := "B", text := "cat" }]

/-- The fitted model `fitVectorizer ["cat", "cat"]` produces. -/
def cVz : TfidfVectorizer := { fitted := true, vocab := ["cat"], dfs := [2], nDocs := 2 }

/-- A concrete unbuilt index over two identical chapter texts. -/
def exIdxCC : TextbookIndex :=
  { textbook_id := "tb", chapters := exChaptersCC, chapter_embeddings := [], vectorizer := none }

/-- A concrete built index over two identical chapter texts. -/
noncomputable def cIdx : TextbookIndex := exIdxCC.build_index.1

/-- A concrete unbuilt index over two distinct chapter texts. -/
def exIdxCD : TextbookIndex :=
  { textbook_id := "tb2",
    chapters := [{ name := "A", text := "cat" }, { name := "B", text := "dog" }],
    chapter_embeddings := [], vectorizer := none }

/-- A concrete empty index. -/
def exEmptyIdx : TextbookIndex :=
  { textbook_id := "e", chapters := [], chapter_embeddings := [], vectorizer := none }

/-- The fitted model `fitVectorizer ["cat", "dog"]` produces. -/
def cVzCD : TfidfVectorizer :=
  { fitted := true, vocab := ["cat", "dog"], dfs := [1, 1], nDocs := 2 }

/-- Membership in a stable insertion is membership in the inserted element or the list. -/
theorem mem_insertAsc {lt : α → α → Prop} [DecidableRel lt] {a x : α} {l : List α} :
    x ∈ insertAsc lt a l ↔ x = a ∨ x ∈ l := by
  induction l with
  | nil => simp [insertAsc]
  | cons b l ih =>
    by_cases h : lt b a
    · simp only [insertAsc, if_pos h, List.mem_cons, ih]
      tauto
    · simp only [insertAsc, if_neg h, List.mem_cons]

/-- Stable insertion permutes the element onto the list. -/
theorem insertAsc_perm {lt : α → α → Prop} [DecidableRel lt] (a : α) (l : List α) :
    (insertAsc lt a l).Perm (a :: l) := by
  induction l with
  | nil => simp [insertAsc]
  | cons b l ih =>
    by_cases h : lt b a
    · simp only [insertAsc, if_pos h]
      exact (ih.cons b).trans (List.Perm.swap a b l)
    · simp [insertAsc, if_neg h]

/-- The stable insertion sort is a permutation of its input. -/
theorem sortAsc_perm {lt : α → α → Prop} [DecidableRel lt] (l : List α) :
    (sortAsc lt l).Perm l := by
  induction l with
  | nil => simp [sortAsc]
  | cons a l ih => exact (insertAsc_perm a (sortAsc lt l)).trans (ih.cons a)

/-- Stable insertion preserves ascending sortedness for a strict total order. -/
theorem pairwise_insertAsc {lt : α → α → Prop} [DecidableRel lt]
    (hasym : ∀ x y, lt x y → ¬ lt y x)
    (htrans : ∀ x y z, lt x y → lt y z → lt x z)
    (htri : ∀ x y, x = y ∨ lt x y ∨ lt y x)
    {a : α} {l : List α} (hl : l.Pairwise (fun x y => ¬ lt y x)) :
    (insertAsc lt a l).Pairwise (fun x y => ¬ lt y x) := by
  induction l with
  | nil => simp [insertAsc]
  | cons b l ih =>
    obtain ⟨hb, hl2⟩ := List.pairwise_cons.1 hl
    by_cases h : lt b a
    · rw [insertAsc, if_pos h]
      refine List.pairwise_cons.2 ⟨?_, ih hl2⟩
      intro z hz
      rcases mem_insertAsc.1 hz with rfl | hz
      · exact hasym b z h
      · exact hb z hz
    · rw [insertAsc, if_neg h]
      refine List.pairwise_cons.2 ⟨?_, hl⟩
      intro z hz
      rcases List.mem_cons.1 hz with rfl | hz
      · exact h
      · intro hza
        rcases htri z b with rfl | hzb | hbz
        · exact h hza
        · exact hb z hz hzb
        · exact h (htrans b z a hbz hza)

/-- The stable insertion sort is ascending for a strict total order. -/
theorem pairwise_sortAsc {lt : α → α → Prop} [DecidableRel lt]
    (hasym : ∀ x y, lt x y → ¬ lt y x)
    (htrans : ∀ x y z, lt x y → lt y z → lt x z)
    (htri : ∀ x y, x = y ∨ lt x y ∨ lt y x)
    (l : List α) : (sortAsc lt l).Pairwise (fun x y => ¬ lt y x) := by
  induction l with
  | nil => simp [sortAsc]
  | cons a l ih => exact pairwise_insertAsc hasym htrans htri ih

/-- On a duplicate-free list, non-descending sortedness for a strict total
order is strict sortedness. -/
theorem pairwise_strict_of {lt : α → α → Prop}
    (htri : ∀ x y : α, x = y ∨ lt x y ∨ lt y x) {l : List α}
    (h1 : l.Pairwise (fun x y => ¬ lt y x)) (h2 : l.Nodup) : l.Pairwise lt := by
  refine (h1.and h2).imp ?_
  intro x y hxy
  rcases htri x y with rfl | h | h
  · exact absurd rfl hxy.2
  · exact h
  · exact absurd h hxy.1

/-- The index order behind the argsort is transitive. -/
theorem idxLt_trans (s : List ℝ) :
    ∀ x y z : Nat, idxLt s x y → idxLt s y z → idxLt s x z := by
  intro x y z hxy hyz
  rcases hxy with h1 | ⟨e1, i1⟩
  · rcases hyz with h2 | ⟨e2, i2⟩
    · exact Or.inl (h1.trans h2)
    · exact Or.inl (e2 ▸ h1)
  · rcases hyz with h2 | ⟨e2, i2⟩
    · exact Or.inl (e1 ▸ h2)
    · exact Or.inr ⟨e1.trans e2, i1.trans i2⟩

/-- The index order behind the argsort is asymmetric. -/
theorem idxLt_asymm (s : List ℝ) : ∀ x y : Nat, idxLt s x y → ¬ idxLt s y x := by
  intro x y hxy hyx
  rcases hxy with h1 | ⟨e1, i1⟩ <;> rcases hyx with h2 | ⟨e2, i2⟩
  · exact absurd h2 (asymm h1)
  · exact absurd h1 (e2 ▸ lt_irrefl _)
  · exact absurd h2 (e1 ▸ lt_irrefl _)
  · exact absurd (i1.trans i2) (lt_irrefl x)

/-- The index order behind the argsort is trichotomous. -/
theorem idxLt_tri (s : List ℝ) : ∀ x y : Nat, x = y ∨ idxLt s x y ∨ idxLt s y x := by
  intro x y
  rcases lt_trichotomy (s.getD x 0) (s.getD y 0) with h | h | h
  · exact Or.inr (Or.inl (Or.inl h))
  · rcases Nat.lt_trichotomy x y with hxy | rfl | hyx
    · exact Or.inr (Or.inl (Or.inr ⟨h, hxy⟩))
    · exact Or.inl rfl
    · exact Or.inr (Or.inr (Or.inr ⟨h.symm, hyx⟩))
  · exact Or.inr (Or.inr (Or.inl h))

/-- The argsort is a permutation of the corpus positions. -/
theorem argsortAsc_perm (s : List ℝ) : (argsortAsc s).Perm (List.range s.length) :=
  sortAsc_perm (List.range s.length)

/-- The argsort has no duplicate positions. -/
theorem argsortAsc_nodup (s : List ℝ) : (argsortAsc s).Nodup :=
  (argsortAsc_perm s).symm.nodup (List.nodup_range s.length)

/-- The argsort is strictly ascending for the score-then-index order. -/
theorem argsortAsc_pairwise (s : List ℝ) : (argsortAsc s).Pairwise (idxLt s) :=
  pairwise_strict_of (idxLt_tri s)
    (pairwise_sortAsc (idxLt_asymm s) (idxLt_trans s) (idxLt_tri s) _)
    (argsortAsc_nodup s)

/-- Membership in the argsort is exactly being a corpus position. -/
theorem mem_argsortAsc {s : List ℝ} {i : Nat} : i ∈ argsortAsc s ↔ i < s.length := by
  rw [(argsortAsc_perm s).mem_iff]
  exact List.mem_range

/-- A Python prefix slice is a sublist. -/
theorem pySliceTo_sublist (l : List α) (k : Int) : (pySliceTo l k).Sublist l := by
  unfold pySliceTo
  split <;> exact List.take_sublist _ _

/-- Length of a Python prefix slice. -/
theorem pySliceTo_length (l : List α) (k : Int) :
    (pySliceTo l k).length =
      if 0 ≤ k then min k.toNat l.length else l.length - (-k).toNat := by
  unfold pySliceTo
  split
  · simp [List.length_take]
  · simp only [List.length_take]
    omega

/-- The ranked prefix is strictly descending for the score-then-index order
read backwards: later entries have strictly smaller scores, or equal scores
and strictly smaller corpus positions. -/
theorem rankTopK_pairwise (s : List ℝ) (k : Int) :
    (rankTopK s k).Pairwise (fun i j => idxLt s j i) :=
  List.Pairwise.sublist (pySliceTo_sublist _ _) (List.pairwise_reverse.2 (argsortAsc_pairwise s))

/-- Every ranked position is a corpus position. -/
theorem mem_rankTopK {s : List ℝ} {k : Int} {i : Nat} (h : i ∈ rankTopK s k) :
    i < s.length :=
  mem_argsortAsc.1 (List.mem_reverse.1 ((pySliceTo_sublist _ _).subset h))

/-- Length of the ranked prefix. -/
theorem rankTopK_length (s : List ℝ) (k : Int) :
    (rankTopK s k).length =
      if 0 ≤ k then min k.toNat s.length else s.length - (-k).toNat := by
  have hlen : (argsortAsc s).reverse.length = s.length := by
    rw [List.length_reverse, (argsortAsc_perm s).length_eq, List.length_range]
  rw [rankTopK, pySliceTo_length, hlen]

/-- A `top_k` of zero slices away everything. -/
theorem rankTopK_zero (s : List ℝ) : rankTopK s 0 = [] := by
  simp [rankTopK, pySliceTo]

/-- The ranked prefix over an empty score row is empty. -/
theorem rankTopK_nil (k : Int) : rankTopK [] k = [] := by
  have : argsortAsc [] = [] := by simp [argsortAsc, sortAsc]
  simp [rankTopK, this, pySliceTo]

/-- The in-range guard of the search result construction always passes when
the corpus positions fit the chapter list. -/
theorem rankTopK_all (s : List ℝ) (k : Int) (n : Nat) (h : s.length ≤ n) :
    ((rankTopK s k).all fun i => decide (i < n)) = true := by
  rw [List.all_eq_true]
  intro i hi
  simpa using lt_of_lt_of_le (mem_rankTopK hi) h

/-- When `top_k` reaches the corpus size the ranked prefix is a permutation of
all corpus positions. -/
theorem rankTopK_perm_of_ge (s : List ℝ) (k : Int) (h : (s.length : Int) ≤ k) :
    (rankTopK s k).Perm (List.range s.length) := by
  have hlen : (argsortAsc s).reverse.length = s.length := by
    rw [List.length_reverse, (argsortAsc_perm s).length_eq, List.length_range]
  have h0 : 0 ≤ k := le_trans (by positivity) h
  have : pySliceTo (argsortAsc s).reverse k = (argsortAsc s).reverse := by
    rw [pySliceTo, if_pos h0]
    exact List.take_of_length_le (by omega)
  rw [rankTopK, this]
  exact (List.reverse_perm _).trans (argsortAsc_perm s)

/-- Growing `top_k` by one extends the ranked prefix. -/
theorem rankTopK_take_succ (s : List ℝ) (k : Int) (hk : 0 ≤ k) :
    rankTopK s k <+: rankTopK s (k + 1) := by
  unfold rankTopK pySliceTo
  rw [if_pos hk, if_pos (by omega : (0:Int) ≤ k + 1)]
  have h1 : (k + 1).toNat = k.toNat + 1 := by omega
  have h2 : List.take k.toNat (argsortAsc s).reverse =
      List.take k.toNat (List.take (k.toNat + 1) (argsortAsc s).reverse) := by
    rw [List.take_take]
    congr 1
    omega
  rw [h1, h2]
  exact List.take_prefix _ _

/-- A dot square is nonnegative. -/
theorem dotL_self_nonneg (v : List ℝ) : 0 ≤ dotL v v := by
  induction v with
  | nil => simp [dotL]
  | cons a v ih =>
    simp only [dotL, List.zipWith_cons_cons, List.sum_cons]
    simp only [dotL] at ih
    exact add_nonneg (mul_self_nonneg a) ih

/-- A dot product against an all-zero vector vanishes. -/
theorem dotL_zero_left {u : List ℝ} (h : ∀ x ∈ u, x = 0) (v : List ℝ) : dotL u v = 0 := by
  induction u generalizing v with
  | nil => simp [dotL]
  | cons a u ih =>
    cases v with
    | nil => simp [dotL]
    | cons b v =>
      have ha : a = 0 := h a (by simp)
      have h2 : ∀ x ∈ u, x = 0 := fun x hx => h x (by simp [hx])
      simp only [dotL, List.zipWith_cons_cons, List.sum_cons]
      have h3 := ih h2 v
      simp only [dotL] at h3
      rw [ha, h3, zero_mul, add_zero]

/-- Cauchy–Schwarz for list dot products. -/
theorem dotL_sq_le (u v : List ℝ) : dotL u v ^ 2 ≤ dotL u u * dotL v v := by
  induction u generalizing v with
  | nil => simp [dotL]
  | cons a u ih =>
    cases v with
    | nil => simp [dotL]
    | cons b v =>
      have h1 := ih v
      have h2 := dotL_self_nonneg u
      have h3 := dotL_self_nonneg v
      simp only [dotL, List.zipWith_cons_cons, List.sum_cons] at h1 h2 h3 ⊢
      set A := (List.zipWith (fun x y => x * y) u u).sum with hAdef
      set B := (List.zipWith (fun x y => x * y) v v).sum with hBdef
      set d := (List.zipWith (fun x y => x * y) u v).sum with hddef
      rcases eq_or_lt_of_le h2 with hA | hA
      · have hA2 : A = 0 := hA.symm
        have h12 : d ^ 2 ≤ 0 := by rw [hA2] at h1; simpa using h1
        have hd : d = 0 := pow_eq_zero_iff two_ne_zero |>.1 (le_antisymm h12 (sq_nonneg d))
        rw [hd, hA2]
        nlinarith [mul_nonneg (mul_self_nonneg a) h3, h3, sq_nonneg (a * b)]
      · have hkey : A * ((a * a + A) * (b * b + B) - (a * b + d) ^ 2)
            = (b * A - a * d) ^ 2 + (a * a + A) * (A * B - d ^ 2) := by ring
        have hrhs : 0 ≤ (b * A - a * d) ^ 2 + (a * a + A) * (A * B - d ^ 2) :=
          add_nonneg (sq_nonneg _)
            (mul_nonneg (by nlinarith [mul_self_nonneg a]) (sub_nonneg.2 h1))
        have hprod : 0 ≤ A * ((a * a + A) * (b * b + B) - (a * b + d) ^ 2) := hkey ▸ hrhs
        nlinarith [hprod, hA]

/-- Normalizing an all-zero vector leaves it unchanged. -/
theorem l2normalize_of_zero {v : List ℝ} (h : ∀ x ∈ v, x = 0) : l2normalize v = v := by
  rw [l2normalize, if_pos (dotL_zero_left h v)]

/-- Dot product after dividing both sides by a common scalar. -/
theorem dotL_map_div (u : List ℝ) (c : ℝ) :
    ∀ v : List ℝ, dotL (u.map fun x => x / c) (v.map fun x => x / c) = dotL u v / (c * c) := by
  induction u with
  | nil => intro v; simp [dotL]
  | cons a u ih =>
    intro v
    cases v with
    | nil => simp [dotL]
    | cons b v =>
      simp only [List.map_cons, dotL, List.zipWith_cons_cons, List.sum_cons]
      have h1 := ih v
      simp only [dotL] at h1
      rw [h1, div_mul_div_comm, add_div]

/-- The squared norm of a normalized vector is zero or one. -/
theorem dotL_l2normalize_self (v : List ℝ) :
    dotL (l2normalize v) (l2normalize v) = 0 ∨ dotL (l2normalize v) (l2normalize v) = 1 := by
  by_cases h : dotL v v = 0
  · exact Or.inl (by rw [l2normalize, if_pos h, h])
  · refine Or.inr ?_
    rw [l2normalize, if_neg h, dotL_map_div, Real.mul_self_sqrt (dotL_self_nonneg v), div_self h]

/-- Cosine similarity never exceeds the self-similarity of the query. -/
theorem cosineSim_le_self (u v : List ℝ) : cosineSim u v ≤ cosineSim u u := by
  unfold cosineSim
  have hcs := dotL_sq_le (l2normalize u) (l2normalize v)
  rcases dotL_l2normalize_self u with h | h <;>
    rcases dotL_l2normalize_self v with h2 | h2 <;>
      rw [h] at hcs ⊢ <;> rw [h2] at hcs <;> nlinarith [hcs]

/-- Self cosine similarity is nonnegative. -/
theorem cosineSim_self_nonneg (u : List ℝ) : 0 ≤ cosineSim u u :=
  dotL_self_nonneg (l2normalize u)

/-- Cosine similarity against an all-zero query vanishes. -/
theorem cosineSim_zero_left {u : List ℝ} (h : ∀ x ∈ u, x = 0) (v : List ℝ) :
    cosineSim u v = 0 := by
  unfold cosineSim
  rw [l2normalize_of_zero h]
  exact dotL_zero_left h _

/-- The tf-idf weighting of an all-zero count row is all zero. -/
theorem zipWith_tfidf_zero {as bs : List Nat} {f : Nat → ℝ} (h : ∀ c ∈ as, c = 0) :
    ∀ y ∈ List.zipWith (fun (c : Nat) (df : Nat) => (c : ℝ) * f df) as bs, y = 0 := by
  induction as generalizing bs with
  | nil => intro y hy; simp at hy
  | cons a as ih =>
    intro y hy
    cases bs with
    | nil => simp at hy
    | cons b bs =>
      simp only [List.zipWith_cons_cons, List.mem_cons] at hy
      rcases hy with rfl | hy
      · rw [h a (by simp), Nat.cast_zero, zero_mul]
      · exact ih (fun c hc => h c (by simp [hc])) y hy

/-- Transforming a text that hits no vocabulary entry yields the zero vector. -/
theorem transform_zero {vz : TfidfVectorizer} {q : String}
    (h : ∀ t ∈ vz.vocab, (termsOf q).count t = 0) :
    ∀ x ∈ vz.transform q, x = 0 := by
  have hraw : ∀ c ∈ rawTf vz q, c = 0 := by
    intro c hc
    obtain ⟨t, ht, rfl⟩ := List.mem_map.1 hc
    exact h t ht
  have hz := @zipWith_tfidf_zero (rawTf vz q) vz.dfs vz.idf hraw
  intro x hx
  rw [TfidfVectorizer.transform, l2normalize_of_zero hz] at hx
  exact hz x hx

/-- Reading an all-zero row with a zero default always yields zero. -/
theorem getD_zero_of_all {s : List ℝ} (h : ∀ x ∈ s, x = 0) (i : Nat) : s.getD i 0 = 0 := by
  by_cases hi : i < s.length
  · rw [List.getD_eq_getElem s 0 hi]
    exact h _ (List.getElem_mem hi)
  · exact List.getD_eq_default s 0 (by omega)

/-- The similarity row of a search, unfolded for a present model. -/
theorem searchSims_eq {idx : TextbookIndex} {vz : TfidfVectorizer}
    (hvz : idx.vectorizer = some vz) (q : String) :
    idx.searchSims q = idx.chapter_embeddings.map (fun e => cosineSim (vz.transform q) e) := by
  unfold TextbookIndex.searchSims
  rw [hvz]

/-- The similarity row is as long as the embedding matrix. -/
theorem searchSims_length {idx : TextbookIndex} {vz : TfidfVectorizer}
    (hvz : idx.vectorizer = some vz) (q : String) :
    (idx.searchSims q).length = idx.chapter_embeddings.length := by
  rw [searchSims_eq hvz q]
  exact List.length_map _ _

/-- Search with no model in place returns nothing. -/
theorem search_none {idx : TextbookIndex} (hvz : idx.vectorizer = none) (q : String) (k : Int) :
    idx.search q k = [] := by
  unfold TextbookIndex.search
  rw [hvz]

/-- Search unfolded for a present model. -/
theorem search_eq_of_some {idx : TextbookIndex} {vz : TfidfVectorizer}
    (hvz : idx.vectorizer = some vz) (q : String) (k : Int) :
    idx.search q k =
      (if idx.chapter_embeddings.length = 0 then []
       else if vz.fitted = false then []
       else if (rankTopK (idx.searchSims q) k).all
           (fun i => decide (i < idx.chapters.length)) then
         (rankTopK (idx.searchSims q) k).map (fun i =>
           { chapter_name := (idx.chapters.getD i default).name,
             chapter_text := (idx.chapters.getD i default).text,
             similarity_score := (idx.searchSims q).getD i 0 })
       else []) := by
  unfold TextbookIndex.search
  rw [hvz]

/-- For a fitted model and an embedding matrix no longer than the chapter
list, search is exactly the ranked prefix read back through the chapters. -/
theorem search_eq_map {idx : TextbookIndex} {vz : TfidfVectorizer}
    (hvz : idx.vectorizer = some vz) (hfit : vz.fitted = true)
    (hwf : idx.chapter_embeddings.length ≤ idx.chapters.length) (q : String) (k : Int) :
    idx.search q k = (rankTopK (idx.searchSims q) k).map (fun i =>
      { chapter_name := (idx.chapters.getD i default).name,
        chapter_text := (idx.chapters.getD i default).text,
        similarity_score := (idx.searchSims q).getD i 0 }) := by
  rw [search_eq_of_some hvz]
  by_cases h0 : idx.chapter_embeddings.length = 0
  · rw [if_pos h0]
    have hsims : idx.searchSims q = [] := by
      rw [searchSims_eq hvz, List.length_eq_zero.1 h0]
      rfl
    rw [hsims, rankTopK_nil]
    rfl
  · rw [if_neg h0, hfit, if_neg (by simp)]
    have hslen : (idx.searchSims q).length ≤ idx.chapters.length := by
      rw [searchSims_length hvz]
      exact hwf
    rw [if_pos (rankTopK_all _ _ _ hslen)]

/-- A successful `build_index` ends with a fitted model on all chapter texts
and one embedding per chapter, the other fields unchanged. -/
theorem build_index_success {idx : TextbookIndex} (h : idx.build_index.2 = true) :
    ∃ vz, fitVectorizer (idx.chapters.map Chapter.text) = some vz ∧
      idx.build_index.1 =
        { idx with
          vectorizer := some vz,
          chapter_embeddings := (idx.chapters.map Chapter.text).map vz.transform } := by
  unfold TextbookIndex.build_index at h ⊢
  by_cases he : idx.chapters.isEmpty
  · rw [if_pos he] at h
    simp at h
  · rw [if_neg he] at h ⊢
    cases hf : fitVectorizer (idx.chapters.map Chapter.text) with
    | none =>
      rw [hf] at h
      simp at h
    | some vz =>
      exact ⟨vz, rfl, rfl⟩

/-- A fitted model produced by `fitVectorizer` reports itself fitted. -/
theorem fitVectorizer_fitted {docs : List String} {vz : TfidfVectorizer}
    (h : fitVectorizer docs = some vz) : vz.fitted = true := by
  unfold fitVectorizer at h
  simp only [] at h
  split at h
  · split at h
    · exact absurd h (by simp)
    · cases h
      rfl
  · split at h
    · exact absurd h (by simp)
    · cases h
      rfl

/-- Fitting on the two identical chapter texts yields the concrete model. -/
theorem fit_cc : fitVectorizer (exIdxCC.chapters.map Chapter.text) = some cVz := by decide

/-- Building the concrete two-chapter index succeeds. -/
theorem build_cc_succ : exIdxCC.build_index.2 = true := by
  unfold TextbookIndex.build_index
  rw [if_neg (by decide), fit_cc]

/-- Normalizing the one-entry unit vector changes nothing. -/
theorem l2n_one : l2normalize [(1 : ℝ)] = [1] := by
  have h : dotL [(1 : ℝ)] [1] = 1 := by simp [dotL]
  rw [l2normalize, if_neg (by rw [h]; norm_num), h, Real.sqrt_one]
  norm_num

/-- The concrete model maps the query text to the unit vector. -/
theorem transform_cc : cVz.transform "cat" = [1] := by
  have hidf : cVz.idf 2 = 1 := by
    unfold TfidfVectorizer.idf
    norm_num [cVz, Real.log_one]
  have hraw : rawTf cVz "cat" = [1] := by decide
  unfold TfidfVectorizer.transform
  rw [hraw, show cVz.dfs = [2] from rfl, List.zipWith_cons_cons]
  norm_num [hidf, List.zipWith_nil_left]
  exact l2n_one

/-- The built concrete index, field by field. -/
theorem cIdx_eq : cIdx =
    { textbook_id := "tb",
      chapters := exChaptersCC,
      chapter_embeddings := [[(1 : ℝ)], [1]],
      vectorizer := some cVz } := by
  obtain ⟨vz, hvz, heq⟩ := build_index_success build_cc_succ
  have hv : vz = cVz := by
    rw [fit_cc] at hvz
    exact (Option.some.inj hvz).symm
  subst hv
  rw [show cIdx = exIdxCC.build_index.1 from rfl, heq]
  simp [exIdxCC, exChaptersCC, transform_cc]

/-- Cosine similarity of the unit vector with itself is one. -/
theorem cos_one_one : cosineSim [(1 : ℝ)] [1] = 1 := by
  unfold cosineSim
  rw [l2n_one]
  simp [dotL]

/-- The concrete similarity row for the query shared by both chapters. -/
theorem searchSims_cc : cIdx.searchSims "cat" = [1, 1] := by
  have hvz : cIdx.vectorizer = some cVz := by rw [cIdx_eq]
  rw [searchSims_eq hvz, show cIdx.chapter_embeddings = [[(1 : ℝ)], [1]] from by rw [cIdx_eq],
    transform_cc]
  simp [cos_one_one]

/-- The argsort of the tied score row keeps index order. -/
theorem argsort_11 : argsortAsc [(1 : ℝ), 1] = [0, 1] := by
  unfold argsortAsc
  rw [show ([(1 : ℝ), 1]).length = 2 from rfl, show List.range 2 = [0, 1] from rfl]
  simp only [sortAsc, insertAsc]
  rw [if_neg]
  intro h
  rcases h with h | ⟨_, h⟩
  · simp [List.getD] at h
  · exact absurd h (by norm_num)

/-- Ranking the tied row with `top_k = 2` reverses the corpus order. -/
theorem rank_11_2 : rankTopK [(1 : ℝ), 1] 2 = [1, 0] := by
  rw [rankTopK, argsort_11]
  rfl

/-- Ranking the tied row with `top_k = -1` keeps one entry. -/
theorem rank_11_neg1 : rankTopK [(1 : ℝ), 1] (-1) = [1] := by
  rw [rankTopK, argsort_11]
  rfl

/-- The concrete search result: chapter B overtakes chapter A on a tie. -/
theorem search_cc : cIdx.search "cat" 2 =
    [{ chapter_name := "B", chapter_text := "cat", similarity_score := 1 },
     { chapter_name := "A", chapter_text := "cat", similarity_score := 1 }] := by
  have hvz : cIdx.vectorizer = some cVz := by rw [cIdx_eq]
  have hwf : cIdx.chapter_embeddings.length ≤ cIdx.chapters.length := by
    rw [cIdx_eq]
    decide
  rw [search_eq_map hvz rfl hwf "cat" 2, searchSims_cc, rank_11_2]
  simp [cIdx_eq, exChaptersCC, List.getD]

/-- The concrete search result for a negative `top_k` is not empty. -/
theorem search_cc_neg : cIdx.search "cat" (-1) =
    [{ chapter_name := "B", chapter_text := "cat", similarity_score := 1 }] := by
  have hvz : cIdx.vectorizer = some cVz := by rw [cIdx_eq]
  have hwf : cIdx.chapter_embeddings.length ≤ cIdx.chapters.length := by
    rw [cIdx_eq]
    decide
  rw [search_eq_map hvz rfl hwf "cat" (-1), searchSims_cc, rank_11_neg1]
  simp [cIdx_eq, exChaptersCC, List.getD]

/-- Fitting on the two distinct chapter texts yields the concrete model. -/
theorem fit_cd : fitVectorizer (exIdxCD.chapters.map Chapter.text) = some cVzCD := by decide

/-- Building the concrete distinct-text index succeeds. -/
theorem build_cd_succ : exIdxCD.build_index.2 = true := by
  unfold TextbookIndex.build_index
  rw [if_neg (by decide), fit_cd]

/-- Unfolding of `search_similar_texts` without ids: it is the ranked prefix over its own
similarity row, with positional ids. -/
theorem sst_none_eq (q : String) (docs : List String) (k : Int) :
    @search_similar_texts String _ q docs none k =
      (rankTopK (sstSims q docs) k).map (fun i =>
        (Sum.inr i, (sstSims q docs).getD i 0, docs.getD i "")) := by
  unfold search_similar_texts
  cases hf : fitVectorizer docs with
  | none =>
    have hs : sstSims q docs = [] := by
      unfold sstSims
      rw [hf]
    rw [hs, rankTopK_nil]
    rfl
  | some vz => rfl

/-- When fitting succeeds, the similarity row of `search_similar_texts` has
one entry per document. -/
theorem sstSims_length {docs : List String} {vz : TfidfVectorizer}
    (hf : fitVectorizer docs = some vz) (q : String) :
    (sstSims q docs).length = docs.length := by
  unfold sstSims
  rw [hf]
  exact List.length_map _ _

/-- C1: the claim as stated is false on the code — with two equal-scored
chapters in corpus order A, B, the search returns B before A: the argsort
ascends stably, so the `[::-1]` reversal puts equal scores in reverse corpus
order. -/
theorem claim1_counterexample :
    cIdx.chapters.map Chapter.name = ["A", "B"] ∧
    (cIdx.search "cat" 2).map SearchResult.chapter_name = ["B", "A"] ∧
    (cIdx.search "cat" 2).map SearchResult.similarity_score = [1, 1] := by
  refine ⟨by rw [cIdx_eq]; rfl, ?_, ?_⟩ <;> rw [search_cc] <;> rfl

/-- C1 (amended): for every fitted index and query, ranking orders results
descending by cosine score, and candidates with equal scores appear in
reverse corpus order (the reversal of a stable ascending argsort); the search
result (and `search_similar_texts` without ids) is exactly this ranked prefix
read back through the corpus. -/
theorem claim1_amended (idx : TextbookIndex) (vz : TfidfVectorizer) (q : String) (k : Int)
    (hvz : idx.vectorizer = some vz) (hfit : vz.fitted = true)
    (hwf : idx.chapter_embeddings.length ≤ idx.chapters.length) :
    (∀ s : List ℝ, (rankTopK s k).Pairwise (fun i j =>
        s.getD j 0 < s.getD i 0 ∨ (s.getD j 0 = s.getD i 0 ∧ j < i))) ∧
    idx.search q k = (rankTopK (idx.searchSims q) k).map (fun i =>
      { chapter_name := (idx.chapters.getD i default).name,
        chapter_text := (idx.chapters.getD i default).text,
        similarity_score := (idx.searchSims q).getD i 0 }) ∧
    (∀ docs : List String, @search_similar_texts String _ q docs none k =
      (rankTopK (sstSims q docs) k).map (fun i =>
        (Sum.inr i, (sstSims q docs).getD i 0, docs.getD i ""))) :=
  ⟨fun s => rankTopK_pairwise s k, search_eq_map hvz hfit hwf q k,
    fun docs => sst_none_eq q docs k⟩

/-- C1 (amended) holds at the concrete tied two-chapter index. -/
theorem claim1_witness :
    cIdx.search "cat" 2 = (rankTopK (cIdx.searchSims "cat") 2).map (fun i =>
      { chapter_name := (cIdx.chapters.getD i default).name,
        chapter_text := (cIdx.chapters.getD i default).text,
        similarity_score := (cIdx.searchSims "cat").getD i 0 }) :=
  (claim1_amended cIdx cVz "cat" 2 (by rw [cIdx_eq]) rfl (by rw [cIdx_eq]; decide)).2.1

/-- C2: the claim as stated is false on the code — `top_k = -1` is allowed by
"top_k ≤ 0" but Python slicing `[:-1]` drops only the last ranked entry, so a
two-chapter index returns one result, not an empty sequence. -/
theorem claim2_counterexample : (-1 : Int) ≤ 0 ∧ cIdx.search "cat" (-1) ≠ [] := by
  refine ⟨by norm_num, ?_⟩
  rw [search_cc_neg]
  simp

/-- C2 (amended): `top_k = 0` returns an empty sequence; a negative `top_k`
follows Python slice semantics and drops the last `|top_k|` ranked entries;
`top_k` at least the corpus size returns all entries, with no error and no
padding (the ranked positions are a permutation of the whole corpus). -/
theorem claim2_amended (idx : TextbookIndex) (vz : TfidfVectorizer) (q : String) (k : Int)
    (hvz : idx.vectorizer = some vz) (hfit : vz.fitted = true)
    (hwf : idx.chapter_embeddings.length ≤ idx.chapters.length) :
    (idx.search q 0 = []) ∧
    (k < 0 → (idx.search q k).length = idx.chapter_embeddings.length - (-k).toNat) ∧
    ((idx.chapter_embeddings.length : Int) ≤ k →
      (idx.search q k).length = idx.chapter_embeddings.length ∧
      (rankTopK (idx.searchSims q) k).Perm (List.range idx.chapter_embeddings.length)) ∧
    (∀ (docs : List String) (vz2 : TfidfVectorizer), fitVectorizer docs = some vz2 →
      (@search_similar_texts String _ q docs none 0 = []) ∧
      (k < 0 →
        (@search_similar_texts String _ q docs none k).length = docs.length - (-k).toNat) ∧
      ((docs.length : Int) ≤ k →
        (@search_similar_texts String _ q docs none k).length = docs.length ∧
        (rankTopK (sstSims q docs) k).Perm (List.range docs.length))) := by
  have hs := searchSims_length hvz q
  refine ⟨?_, fun hneg => ?_, fun hge => ?_, fun docs vz2 hf => ?_⟩
  · rw [search_eq_map hvz hfit hwf q 0, rankTopK_zero]
    rfl
  · rw [search_eq_map hvz hfit hwf q k, List.length_map, rankTopK_length, if_neg (by omega), hs]
  · constructor
    · rw [search_eq_map hvz hfit hwf q k, List.length_map, rankTopK_length, if_pos (by omega), hs]
      omega
    · have hp := rankTopK_perm_of_ge (idx.searchSims q) k (by rw [hs]; exact hge)
      rwa [hs] at hp
  · have hsl := sstSims_length hf q
    refine ⟨?_, fun hneg => ?_, fun hge => ?_⟩
    · rw [sst_none_eq, rankTopK_zero]
      rfl
    · rw [sst_none_eq, List.length_map, rankTopK_length, if_neg (by omega), hsl]
    · constructor
      · rw [sst_none_eq, List.length_map, rankTopK_length, if_pos (by omega), hsl]
        omega
      · have hp := rankTopK_perm_of_ge (sstSims q docs) k (by rw [hsl]; exact hge)
        rwa [hsl] at hp

/-- C2 (amended) holds at a concrete index and a concrete document list for
`top_k` zero, negative, and beyond the corpus size, for both operations. -/
theorem claim2_witness :
    cIdx.search "cat" 0 = [] ∧
    (cIdx.search "cat" (-1)).length = cIdx.chapter_embeddings.length - (-(-1 : Int)).toNat ∧
    (cIdx.search "cat" 5).length = cIdx.chapter_embeddings.length ∧
    @search_similar_texts String _ "cat" ["cat", "cat"] none 0 = [] ∧
    (@search_similar_texts String _ "cat" ["cat", "cat"] none (-1)).length =
      (["cat", "cat"] : List String).length - (-(-1 : Int)).toNat ∧
    (@search_similar_texts String _ "cat" ["cat", "cat"] none 5).length =
      (["cat", "cat"] : List String).length := by
  have h0 := claim2_amended cIdx cVz "cat" 0 (by rw [cIdx_eq]) rfl (by rw [cIdx_eq]; decide)
  have h1 := claim2_amended cIdx cVz "cat" (-1) (by rw [cIdx_eq]) rfl (by rw [cIdx_eq]; decide)
  have h2 := claim2_amended cIdx cVz "cat" 5 (by rw [cIdx_eq]) rfl (by rw [cIdx_eq]; decide)
  have hfcc : fitVectorizer ["cat", "cat"] = some cVz := by decide
  exact ⟨h0.1, h1.2.1 (by norm_num), (h2.2.2.1 (by rw [cIdx_eq]; simp)).1,
    (h0.2.2.2 ["cat", "cat"] cVz hfcc).1,
    (h1.2.2.2 ["cat", "cat"] cVz hfcc).2.1 (by norm_num),
    ((h2.2.2.2 ["cat", "cat"] cVz hfcc).2.2 (by decide)).1⟩

/-- C3: loading a saved index restores an index whose search results agree
with the original for every query and every `top_k`, exactly. -/
theorem claim3_roundtrip (idx : TextbookIndex) :
    ∃ idx2, TextbookIndex.load idx.save = some idx2 ∧
      ∀ (q : String) (k : Int), idx2.search q k = idx.search q k :=
  ⟨idx, rfl, fun _ _ => rfl⟩

/-- C4: a query sharing no vocabulary term with the fitted corpus scores
exactly zero against every candidate, with no error and no NaN. -/
theorem claim4_zero_overlap (idx : TextbookIndex) (vz : TfidfVectorizer) (q : String) (k : Int)
    (hvz : idx.vectorizer = some vz)
    (hq : ∀ t ∈ vz.vocab, (termsOf q).count t = 0) :
    ∀ r ∈ idx.search q k, r.similarity_score = 0 := by
  have hzero : ∀ x ∈ idx.searchSims q, x = 0 := by
    rw [searchSims_eq hvz]
    intro x hx
    obtain ⟨e, he, rfl⟩ := List.mem_map.1 hx
    exact cosineSim_zero_left (transform_zero hq) e
  intro r hr
  rw [search_eq_of_some hvz] at hr
  split at hr
  · simp at hr
  · split at hr
    · simp at hr
    · split at hr
      · obtain ⟨i, hi, rfl⟩ := List.mem_map.1 hr
        exact getD_zero_of_all hzero i
      · simp at hr

/-- Mapping a constant-valued function over a list gives a replicate. -/
theorem map_eq_replicate {α β : Type} {l : List α} {f : α → β} {c : β}
    (h : ∀ x ∈ l, f x = c) : l.map f = List.replicate l.length c := by
  induction l with
  | nil => rfl
  | cons a l ih =>
    rw [List.map_cons, h a (by simp), List.length_cons, List.replicate_succ,
      ih (fun x hx => h x (by simp [hx]))]

/-- C4 holds at the concrete index for a query with no vocabulary overlap:
every returned score is zero. -/
theorem claim4_witness : (cIdx.search "dog" 3).map SearchResult.similarity_score =
    List.replicate (cIdx.search "dog" 3).length 0 :=
  map_eq_replicate (claim4_zero_overlap cIdx cVz "dog" 3 (by rw [cIdx_eq]) (by decide))

/-- C5: building with zero chapters reports failure and changes nothing, and
every successful build stores exactly one document vector per chapter. -/
theorem claim5_build (idx : TextbookIndex) :
    (idx.chapters = [] → idx.build_index = (idx, false)) ∧
    (idx.build_index.2 = true →
      idx.build_index.1.chapter_embeddings.length = idx.build_index.1.chapters.length) := by
  constructor
  · intro h
    unfold TextbookIndex.build_index
    rw [if_pos (by simp [h])]
  · intro h
    obtain ⟨vz, hvz, heq⟩ := build_index_success h
    rw [heq]
    simp

/-- C5 holds at a concrete empty index and a concrete successful build. -/
theorem claim5_witness :
    exEmptyIdx.build_index = (exEmptyIdx, false) ∧
    exIdxCC.build_index.1.chapter_embeddings.length = exIdxCC.build_index.1.chapters.length :=
  ⟨(claim5_build exEmptyIdx).1 rfl, (claim5_build exIdxCC).2 build_cc_succ⟩

/-- C6: for a nonnegative `top_k`, the search result is a prefix of the
result for `top_k + 1` on the same index state. -/
theorem claim6_topk_monotone (idx : TextbookIndex) (q : String) (k : Int) (hk : 0 ≤ k)
    (hwf : idx.chapter_embeddings.length ≤ idx.chapters.length) :
    idx.search q k <+: idx.search q (k + 1) := by
  cases hvz : idx.vectorizer with
  | none =>
    rw [search_none hvz, search_none hvz]
  | some vz =>
    by_cases hfit : vz.fitted = true
    · rw [search_eq_map hvz hfit hwf q k, search_eq_map hvz hfit hwf q (k + 1)]
      exact List.IsPrefix.map _ (rankTopK_take_succ (idx.searchSims q) k hk)
    · have hfitF : vz.fitted = false := by simpa using hfit
      rw [search_eq_of_some hvz, search_eq_of_some hvz]
      by_cases h0 : idx.chapter_embeddings.length = 0
      · rw [if_pos h0, if_pos h0]
      · rw [if_neg h0, if_neg h0, hfitF, if_pos rfl, if_pos rfl]

/-- C6 holds at the concrete index for `top_k = 1`. -/
theorem claim6_witness : cIdx.search "cat" 1 <+: cIdx.search "cat" 2 :=
  claim6_topk_monotone cIdx "cat" 1 (by norm_num) (by rw [cIdx_eq]; decide)

/-- C7: on a built index with pairwise distinct chapter texts, querying with
the text of chapter i verbatim gives chapter i a similarity score at least
the score of every other chapter (how the claim reads "ranks first"). -/
theorem claim7_self_similarity (idx0 : TextbookIndex) (i : Nat)
    (hi : i < idx0.chapters.length)
    (hdist : (idx0.chapters.map Chapter.text).Pairwise (fun a b => a ≠ b))
    (hsucc : idx0.build_index.2 = true) :
    ∀ j, (idx0.build_index.1.searchSims ((idx0.chapters.getD i default).text)).getD j 0 ≤
      (idx0.build_index.1.searchSims ((idx0.chapters.getD i default).text)).getD i 0 := by
  obtain ⟨vz, hfv, heq⟩ := build_index_success hsucc
  have hvz : idx0.build_index.1.vectorizer = some vz := by rw [heq]
  have hemb : idx0.build_index.1.chapter_embeddings =
      (idx0.chapters.map Chapter.text).map vz.transform := by rw [heq]
  have hsims : idx0.build_index.1.searchSims ((idx0.chapters.getD i default).text) =
      ((idx0.chapters.map Chapter.text).map vz.transform).map
        (fun e => cosineSim (vz.transform ((idx0.chapters.getD i default).text)) e) := by
    rw [searchSims_eq hvz, hemb]
  intro j
  rw [hsims]
  have hlen : (((idx0.chapters.map Chapter.text).map vz.transform).map
      (fun e => cosineSim (vz.transform ((idx0.chapters.getD i default).text)) e)).length =
      idx0.chapters.length := by
    simp
  have hival : (((idx0.chapters.map Chapter.text).map vz.transform).map
      (fun e => cosineSim (vz.transform ((idx0.chapters.getD i default).text)) e)).getD i 0 =
      cosineSim (vz.transform ((idx0.chapters.getD i default).text))
        (vz.transform ((idx0.chapters.getD i default).text)) := by
    rw [List.getD_eq_getElem _ _ (by omega)]
    rw [List.getElem_map, List.getElem_map, List.getElem_map]
    congr 2
    exact congrArg Chapter.text (List.getD_eq_getElem _ default hi).symm
  by_cases hj : j < idx0.chapters.length
  · rw [List.getD_eq_getElem _ _ (by omega), hival, List.getElem_map]
    exact cosineSim_le_self _ _
  · rw [List.getD_eq_default _ _ (by omega), hival]
    exact cosineSim_self_nonneg _

/-- C7 holds at a concrete two-chapter index with distinct texts: the other
chapter scores no more than the queried chapter. -/
theorem claim7_witness :
    (exIdxCD.build_index.1.searchSims ((exIdxCD.chapters.getD 0 default).text)).getD 1 0 ≤
      (exIdxCD.build_index.1.searchSims ((exIdxCD.chapters.getD 0 default).text)).getD 0 0 :=
  claim7_self_similarity exIdxCD 0 (by decide) (by decide) build_cd_succ 1

/-- C8: appending a chapter leaves the fitted model and the embedding matrix
unchanged, and search results for every query are identical before and after
the append (the new chapter is invisible until the next build). -/
theorem claim8_add_chapter_frame (idx : TextbookIndex) (n t q : String) (k : Int)
    (hwf : idx.chapter_embeddings.length ≤ idx.chapters.length) :
    (idx.add_chapter n t).vectorizer = idx.vectorizer ∧
    (idx.add_chapter n t).chapter_embeddings = idx.chapter_embeddings ∧
    (idx.add_chapter n t).search q k = idx.search q k := by
  refine ⟨rfl, rfl, ?_⟩
  cases hvz : idx.vectorizer with
  | none =>
    have hvz2 : (idx.add_chapter n t).vectorizer = none := hvz
    rw [search_none hvz2, search_none hvz]
  | some vz =>
    have hvz2 : (idx.add_chapter n t).vectorizer = some vz := hvz
    by_cases hfit : vz.fitted = true
    · have hwf2 : (idx.add_chapter n t).chapter_embeddings.length ≤
          (idx.add_chapter n t).chapters.length := by
        show idx.chapter_embeddings.length ≤
          (idx.chapters ++ [({ name := n, text := t } : Chapter)]).length
        rw [List.length_append]
        omega
      rw [search_eq_map hvz2 hfit hwf2 q k, search_eq_map hvz hfit hwf q k]
      have hss : (idx.add_chapter n t).searchSims q = idx.searchSims q := by
        rw [searchSims_eq hvz2, searchSims_eq hvz]
        rfl
      rw [hss]
      apply List.map_congr_left
      intro i hi
      have hilen : i < (idx.searchSims q).length := mem_rankTopK hi
      have hie : i < idx.chapters.length := by
        rw [searchSims_length hvz] at hilen
        omega
      have hgd : (idx.add_chapter n t).chapters.getD i default = idx.chapters.getD i default :=
        List.getD_append _ _ _ _ hie
      rw [hgd]
    · have hfitF : vz.fitted = false := by simpa using hfit
      rw [search_eq_of_some hvz2, search_eq_of_some hvz]
      have he : (idx.add_chapter n t).chapter_embeddings = idx.chapter_embeddings := rfl
      rw [he]
      by_cases h0 : idx.chapter_embeddings.length = 0
      · rw [if_pos h0, if_pos h0]
      · rw [if_neg h0, if_neg h0, hfitF, if_pos rfl, if_pos rfl]

/-- C8 holds at the concrete built index. -/
theorem claim8_witness :
    (cIdx.add_chapter "C" "bird").vectorizer = cIdx.vectorizer ∧
    (cIdx.add_chapter "C" "bird").chapter_embeddings = cIdx.chapter_embeddings ∧
    (cIdx.add_chapter "C" "bird").search "cat" 3 = cIdx.search "cat" 3 :=
  claim8_add_chapter_frame cIdx "C" "bird" "cat" 3 (by rw [cIdx_eq]; decide)

/-- Numbering pages preserves the page count. -/
theorem numberPages_length (k : Nat) (l : List String) : (numberPages k l).length = l.length := by
  induction l generalizing k with
  | nil => rfl
  | cons t r ih => simp [numberPages, ih]

/-- Dropping numbered pages is numbering the dropped pages. -/
theorem numberPages_drop (j : Nat) : ∀ (k : Nat) (l : List String),
    (numberPages k l).drop j = numberPages (k + j) (l.drop j) := by
  induction j with
  | zero => intro k l; simp
  | succ j ih =>
    intro k l
    cases l with
    | nil => simp [numberPages]
    | cons t r =>
      simp only [numberPages, List.drop_succ_cons]
      rw [ih (k + 1) r]
      congr 1
      omega

/-- Taking numbered pages is numbering the taken pages. -/
theorem numberPages_take (j : Nat) : ∀ (k : Nat) (l : List String),
    (numberPages k l).take j = numberPages k (l.take j) := by
  induction j with
  | zero => intro k l; simp [numberPages]
  | succ j ih =>
    intro k l
    cases l with
    | nil => simp [numberPages]
    | cons t r => simp [numberPages, List.take_succ_cons, ih]

/-- The texts of numbered pages are the original page texts. -/
theorem numberPages_map_text (k : Nat) (l : List String) :
    (numberPages k l).map Page.text = l := by
  induction l generalizing k with
  | nil => rfl
  | cons t r ih => simp [numberPages, ih]

/-- The first numbered page carries the starting number. -/
theorem numberPages_headD (k : Nat) {l : List String} (h : l ≠ []) :
    ((numberPages k l).headD default).page_number = k := by
  cases l with
  | nil => exact absurd rfl h
  | cons t r => rfl

/-- The last numbered page carries the starting number plus the count. -/
theorem numberPages_getLastD : ∀ (l : List String) (k : Nat), l ≠ [] →
    ((numberPages k l).getLastD default).page_number = k + l.length - 1 := by
  intro l
  induction l with
  | nil => intro k h; exact absurd rfl h
  | cons t r ih =>
    intro k h
    by_cases hr : r = []
    · subst hr
      simp [numberPages, List.getLastD]
    · rw [show numberPages k (t :: r) = { page_number := k, text := t } :: numberPages (k + 1) r
          from rfl,
        List.getLastD_cons]
      have hlast : (numberPages (k + 1) r).getLastD { page_number := k, text := t } =
          (numberPages (k + 1) r).getLastD default := by
        cases hr2 : numberPages (k + 1) r with
        | nil =>
          have hl : r.length = 0 := by rw [← numberPages_length (k + 1) r, hr2]; rfl
          exact absurd (List.length_eq_zero.1 hl) hr
        | cons x y => simp [List.getLastD]
      rw [hlast, ih (k + 1) hr]
      simp only [List.length_cons]
      omega

/-- The `auto` policy over consecutively numbered pages, in closed form. -/
theorem autoChapters_closed (texts : List String) :
    autoChapters (numberPages 1 texts) =
      (List.range ((texts.length + 4) / 5)).map (fun k =>
        { name := "Section " ++ toString (k + 1) ++ " (Pages " ++ toString (5 * k + 1) ++ "-" ++
            toString (min (5 * k + 5) texts.length) ++ ")",
          text := String.intercalate "\n" ((texts.drop (5 * k)).take 5) }) := by
  unfold autoChapters pyRange5
  rw [numberPages_length, List.map_map]
  apply List.map_congr_left
  intro k hk
  have hk5 : 5 * k < texts.length := by
    rw [List.mem_range] at hk
    omega
  have hchunk : ((numberPages 1 texts).drop (5 * k)).take 5 =
      numberPages (1 + 5 * k) ((texts.drop (5 * k)).take 5) := by
    rw [numberPages_drop, numberPages_take]
  have hdne : texts.drop (5 * k) ≠ [] := by
    intro hnil
    rw [List.drop_eq_nil_iff] at hnil
    omega
  have hne : (texts.drop (5 * k)).take 5 ≠ [] := by
    cases hd : texts.drop (5 * k) with
    | nil => exact absurd hd hdne
    | cons x y => simp [hd, List.take_succ_cons]
  have hlen5 : ((texts.drop (5 * k)).take 5).length = min 5 (texts.length - 5 * k) := by
    rw [List.length_take, List.length_drop]
  simp only [Function.comp_apply]
  have hname : ((((numberPages 1 texts).drop (5 * k)).take 5).headD default).page_number
      = 5 * k + 1 := by
    rw [hchunk, numberPages_headD _ hne]
    omega
  have hlast : ((((numberPages 1 texts).drop (5 * k)).take 5).getLastD default).page_number
      = min (5 * k + 5) texts.length := by
    rw [hchunk, numberPages_getLastD _ _ hne, hlen5]
    omega
  have htext : (((numberPages 1 texts).drop (5 * k)).take 5).map Page.text =
      (texts.drop (5 * k)).take 5 := by
    rw [hchunk, numberPages_map_text]
  have hsec : 5 * k / 5 = k := by omega
  rw [Chapter.mk.injEq, hname, hlast, htext, hsec]
  exact ⟨rfl, rfl⟩

/-- Folding chapter appends records exactly the appended chapters. -/
theorem foldl_add_chapter_chapters : ∀ (cs : List Chapter) (idx : TextbookIndex),
    (cs.foldl (fun (a : TextbookIndex) (c : Chapter) => a.add_chapter c.name c.text) idx).chapters
      = idx.chapters ++ cs := by
  intro cs
  induction cs with
  | nil => intro idx; simp
  | cons c cs ih =>
    intro idx
    rw [List.foldl_cons, ih]
    simp [TextbookIndex.add_chapter]

/-- Building never changes the chapter list. -/
theorem build_index_chapters (idx : TextbookIndex) : idx.build_index.1.chapters = idx.chapters := by
  unfold TextbookIndex.build_index
  split
  · rfl
  · split <;> rfl

/-- The chapters of an indexed textbook are the chunking of its pages. -/
theorem index_textbook_chapters (texts : List String) (tid policy : String) :
    (index_textbook texts tid policy).chapters = chunkPages (numberPages 1 texts) policy := by
  unfold index_textbook
  rw [build_index_chapters, foldl_add_chapter_chapters]
  rfl

/-- C9: on a non-empty page list, the `auto` policy produces `ceil(n/5)`
chapters, the k-th (zero-based) joining the texts of pages `5k+1` through
`min(5k+5, n)` with newlines under the name
`"Section {k+1} (Pages {5k+1}-{min(5k+5,n)})"`, and the `heading` policy
falls back to the `page` policy. -/
theorem claim9_chunking (texts : List String) (h : texts ≠ []) :
    chunkPages (numberPages 1 texts) "auto" =
      (List.range ((texts.length + 4) / 5)).map (fun k =>
        { name := "Section " ++ toString (k + 1) ++ " (Pages " ++ toString (5 * k + 1) ++ "-" ++
            toString (min (5 * k + 5) texts.length) ++ ")",
          text := String.intercalate "\n" ((texts.drop (5 * k)).take 5) }) ∧
    chunkPages (numberPages 1 texts) "heading" = chunkPages (numberPages 1 texts) "page" ∧
    (∀ tid : String, (index_textbook texts tid "auto").chapters =
      chunkPages (numberPages 1 texts) "auto") := by
  refine ⟨?_, ?_, fun tid => index_textbook_chapters texts tid "auto"⟩
  · rw [chunkPages, if_neg (by decide), if_pos rfl]
    exact autoChapters_closed texts
  · rw [chunkPages, if_neg (by decide), if_neg (by decide),
      show chunkPages (numberPages 1 texts) "page" = pageChapters (numberPages 1 texts) from by
        rw [chunkPages, if_pos rfl]]

/-- C9 holds at a concrete six-page book. -/
theorem claim9_witness :
    chunkPages (numberPages 1 ["p1", "p2", "p3", "p4", "p5", "p6"]) "auto" =
      (List.range (((["p1", "p2", "p3", "p4", "p5", "p6"] : List String).length + 4) / 5)).map
        (fun k =>
          { name := "Section " ++ toString (k + 1) ++ " (Pages " ++ toString (5 * k + 1) ++ "-" ++
              toString (min (5 * k + 5)
                (["p1", "p2", "p3", "p4", "p5", "p6"] : List String).length) ++ ")",
            text := String.intercalate "\n"
              ((((["p1", "p2", "p3", "p4", "p5", "p6"] : List String)).drop (5 * k)).take 5) }) :=
  (claim9_chunking ["p1", "p2", "p3", "p4", "p5", "p6"] (by decide)).1

/-- C10: every chapter-detection value other than `page` and `auto` falls into
the per-page `else` branch: one chapter per page named after the page number,
with no error. -/
theorem claim10_fallback (texts : List String) (policy : String)
    (h1 : policy ≠ "page") (h2 : policy ≠ "auto") :
    chunkPages (numberPages 1 texts) policy = chunkPages (numberPages 1 texts) "page" ∧
    chunkPages (numberPages 1 texts) policy =
      (numberPages 1 texts).map (fun p =>
        { name := "Page " ++ toString p.page_number, text := p.text }) ∧
    (∀ tid : String, (index_textbook texts tid policy).chapters =
      chunkPages (numberPages 1 texts) policy) := by
  have hp : chunkPages (numberPages 1 texts) policy = pageChapters (numberPages 1 texts) := by
    rw [chunkPages, if_neg h1, if_neg h2]
  refine ⟨?_, hp, fun tid => index_textbook_chapters texts tid policy⟩
  rw [hp, chunkPages, if_pos rfl]

/-- C10 holds at a concrete unrecognized policy string. -/
theorem claim10_witness :
    chunkPages (numberPages 1 ["x", "y"]) "bogus" = chunkPages (numberPages 1 ["x", "y"]) "page" :=
  (claim10_fallback ["x", "y"] "bogus" (by decide) (by decide)).1
